import Mathlib

/-!
Shallow embedding of the vose repository (Vose's alias method sampler,
`src/vose/sampler.pyx`), together with proofs about the claims of its
specification.

Modelling conventions:
* weights and probabilities (C doubles in the source) are modelled over `ℚ`,
  i.e. exact arithmetic;
* the `std::minstd_rand` generator is modelled exactly (it is integer-only);
* machine integers are modelled as `ℕ` with an explicit reduction where the
  source multiplies in `uint_fast32_t`; the width of that type is declared
  outside src/ (random_wrapper.pxd), so both the 64-bit realisation of the
  reference LP64 platform (`fair_die`) and the minimal 32-bit realisation
  described by the spec (`fair_die32`) are provided;
* where the single-precision `float` type of the source is load-bearing (the
  coin-toss boundary behaviour), the conversion is modelled exactly by a
  round-to-nearest-even function on `ℕ` (`float32`);
* the C++ `deque` worklists, used only through `push_front`, `back` and
  `pop_back`, are stored pop-end first: `push_front` appends at the tail of
  the Lean list, `back`/`pop_back` read/drop its head;
* the unchecked memoryview read in `sample_k_from` (the source is compiled
  with `boundscheck=False`) is modelled as an `Option` lookup, `none` standing
  for an out-of-bounds access.
-/

namespace Vose

/-- Modulus of `std::minstd_rand`: `2 ^ 31 - 1`. -/
def lcgM : ℕ := 2147483647

/-- Multiplier of `std::minstd_rand`. -/
def lcgA : ℕ := 48271

/-- Value of `generator.max()` stored into `self.maxi` in `Sampler.__init__`:
`lcgM - 1`. -/
def maxi : ℕ := 2147483646

/-- Seeding of `std::minstd_rand` (increment 0): the state is `seed mod m`,
replaced by `1` when that residue is `0`. -/
def seedState (seed : ℕ) : ℕ := if seed % lcgM = 0 then 1 else seed % lcgM

/-- One `generator()` call of `std::minstd_rand`: the state is multiplied by
`lcgA` mod `lcgM`; the new state is also the returned draw. -/
def genNext (s : ℕ) : ℕ := s * lcgA % lcgM

/-- Working state of the table-building code of `Sampler.__init__`: the
weights view, the `proba` and `alias` arrays being filled in, and the two
worklist deques (stored pop-end first, see the module docstring). -/
structure BuildState where
  weights : List ℚ
  proba : List ℚ
  aliasT : List ℕ
  small : List ℕ
  large : List ℕ

/-- The pairing `while` loop of `Sampler.__init__` (sampler.pyx lines 72-91),
written with a fuel argument equal to the total size of the two worklists.
Each iteration pops one index from each list and pushes exactly one back, so
the total size decreases by one per iteration and this fuel is never
exhausted; the wrapper `aliasLoop` supplies it. -/
def aliasLoopF (n : ℕ) (avg : ℚ) : ℕ → BuildState → BuildState
  | fuel + 1, ⟨w, p, a, less :: small, more :: large⟩ =>
      let p1 := p.set less (w.getD less 0 * (n : ℚ))
      let a1 := a.set less more
      let w1 := w.set more (w.getD more 0 + w.getD less 0 - avg)
      if w1.getD more 0 ≥ avg then
        aliasLoopF n avg fuel ⟨w1, p1, a1, small, large ++ [more]⟩
      else
        aliasLoopF n avg fuel ⟨w1, p1, a1, small ++ [more], large⟩
  | _, st => st

/-- The pairing `while` loop of `Sampler.__init__` (sampler.pyx lines 72-91):
runs until one of the two worklists is empty. -/
def aliasLoop (n : ℕ) (avg : ℚ) (st : BuildState) : BuildState :=
  aliasLoopF n avg (st.small.length + st.large.length) st

/-- The classification loop of `Sampler.__init__` (sampler.pyx lines 57-64):
each index `i` is pushed (with `push_front`) onto `large` when
`weights[i] >= avg` and onto `small` otherwise.  With the pop-end-first deque
representation, `push_front` is an append at the tail. -/
def classify (w : List ℚ) (avg : ℚ) : List ℕ × List ℕ :=
  (List.range w.length).foldl
    (fun sl i => if w.getD i 0 ≥ avg then (sl.1, sl.2 ++ [i]) else (sl.1 ++ [i], sl.2))
    ([], [])

/-- One of the draining loops of `Sampler.__init__` (sampler.pyx lines
96-101): pop every index left in a worklist and set its `proba` entry to 1. -/
def drain (p : List ℚ) : List ℕ → List ℚ
  | [] => p
  | i :: rest => drain (p.set i 1) rest

/-- The alias table produced by `Sampler.__init__`. -/
structure AliasTable where
  n : ℕ
  proba : List ℚ
  aliasT : List ℕ

/-- The build state at exit of the pairing loop of `Sampler.__init__`:
`avg = 1 / n` (line 50), initial classification (lines 57-64), then the
pairing loop (lines 72-91). -/
def buildState (w : List ℚ) : BuildState :=
  let n := w.length
  let avg : ℚ := 1 / (n : ℚ)
  let sl := classify w avg
  aliasLoop n avg ⟨w, List.replicate n 0, List.replicate n 0, sl.1, sl.2⟩

/-- The table construction of `Sampler.__init__` (sampler.pyx lines 45-105):
pairing loop followed by the two draining loops.  The second component is the
final contents of the working weights buffer (which aliases the caller's
buffer when `copy=False`). -/
def buildTable (w : List ℚ) : AliasTable × List ℚ :=
  let st := buildState w
  let p1 := drain st.proba st.small
  let p2 := drain p1 st.large
  (⟨w.length, p2, st.aliasT⟩, st.weights)

/-- The `Sampler` object: the table fields plus the generator state (see the
declarations in sampler.pxd). -/
structure Sampler where
  n : ℕ
  proba : List ℚ
  aliasT : List ℕ
  maxi : ℕ
  gen : ℕ

/-- `Sampler.__init__` (sampler.pyx lines 32-105).  `entropy` models the one
`random_device` draw `r()` consumed when `seed is None`; `copy` is the `copy`
argument.  The second component of the result is the content of the caller's
weights buffer after construction: the original when `copy=True` (the code
mutates a copy), the mutated working buffer when `copy=False`. -/
def mkSampler (w : List ℚ) (copy : Bool) (seed : Option ℕ) (entropy : ℕ) :
    Sampler × List ℚ :=
  let g := match seed with
    | none => seedState entropy
    | some s => seedState s
  let t := buildTable w
  (⟨t.1.n, t.1.proba, t.1.aliasT, maxi, g⟩, if copy then w else t.2)

/-- `Sampler.coin_toss` (sampler.pyx lines 107-114): one generator draw,
returning `generator() < maxi * p`, with the comparison modelled in exact
arithmetic over `ℚ` (the idealisation under which the spec states the
sampling-pipeline properties).  The companion `coin_toss_single` below models
the same comparison with its single-precision conversions made explicit. -/
def coin_toss (s : Sampler) (p : ℚ) : Bool × Sampler :=
  let v := genNext s.gen
  (decide ((v : ℚ) < (s.maxi : ℚ) * p), { s with gen := v })

/-- Binary digit count, with a fuel argument (fuel 64 suffices for every value
arising here). -/
def bitsF : ℕ → ℕ → ℕ
  | 0, _ => 0
  | fuel + 1, v => if v = 0 then 0 else bitsF fuel (v / 2) + 1

/-- Round-to-nearest-even conversion of an unsigned integer to IEEE-754 single
precision (24-bit significand), returned as the exact integer value of that
float.  Valid for the magnitudes arising here (all far below the single
precision overflow threshold): values up to `2 ^ 24` are exact, larger values
are rounded to a multiple of the spacing of their binade. -/
def float32 (v : ℕ) : ℕ :=
  if v ≤ 2 ^ 24 then v
  else
    let sh := bitsF 64 v - 24
    let q := v / 2 ^ sh
    let r := v % 2 ^ sh
    if 2 * r > 2 ^ sh ∨ (2 * r = 2 ^ sh ∧ q % 2 = 1) then (q + 1) * 2 ^ sh
    else q * 2 ^ sh

/-- The comparison performed by `Sampler.coin_toss` (sampler.pyx line 114)
with its C conversions made explicit, for an integer heads probability `p`
(the boundary cases `p = 0` and `p = 1` of the claims): `p` is a C `float`
(sampler.pxd), so in `generator() < maxi * p` the `int` `maxi` is converted
to single precision, the product is a single-precision multiplication (exact
for `p = 0` and `p = 1`), and the draw is converted to single precision for
the comparison. -/
def coin_toss_single (s : Sampler) (p : ℕ) : Bool × Sampler :=
  let v := genNext s.gen
  (decide (float32 v < float32 (float32 s.maxi * p)), { s with gen := v })

/-- `Sampler.fair_die` (sampler.pyx lines 116-123): one generator draw,
returning `generator() * n / (maxi + 1)`; `/` is C unsigned integer division,
i.e. `ℕ` floor division.  The product is computed in the width of the
declared `generator()` result type (`uint_fast32_t`, declared through
random_wrapper.pxd, which is not part of src/); this definition realises the
64-bit case of the reference LP64 platform, hence the explicit reduction mod
`2 ^ 64`; the companion `fair_die32` below realises the minimal 32-bit case
described by the spec. -/
def fair_die (s : Sampler) (n : ℕ) : ℕ × Sampler :=
  let v := genNext s.gen
  (v * n % 2 ^ 64 / (s.maxi + 1), { s with gen := v })

/-- Modelled from the spec: the width of the product in `fair_die` is fixed by
the `generator()` result type declared in random_wrapper.pxd, which is missing
from src/; spec section 9 describes the reference computation as multiplying
"a near-maximum random draw by n in fixed-width arithmetic, which can silently
overflow".  This realisation takes the minimal width of `uint_fast32_t`
(at least 32 bits): the product is reduced mod `2 ^ 32`. -/
def fair_die32 (s : Sampler) (n : ℕ) : ℕ × Sampler :=
  let v := genNext s.gen
  (v * n % 2 ^ 32 / (s.maxi + 1), { s with gen := v })

/-- `Sampler.sample_1` (sampler.pyx lines 125-136). -/
def sample_1 (s : Sampler) : ℕ × Sampler :=
  let r1 := fair_die s s.n
  let r2 := coin_toss r1.2 (r1.2.proba.getD r1.1 0)
  if r2.1 then (r1.1, r2.2) else (r2.2.aliasT.getD r1.1 0, r2.2)

/-- `Sampler.sample_k` (sampler.pyx lines 138-143): `k` sequential
`sample_1` calls, collected in draw order. -/
def sample_k (s : Sampler) : ℕ → List ℕ × Sampler
  | 0 => ([], s)
  | k + 1 =>
      let r1 := sample_1 s
      let rs := sample_k r1.2 k
      (r1.1 :: rs.1, rs.2)

/-- `Sampler.sample_k_from` (sampler.pyx lines 145-150):
`out[i] = values[sample_1()]`.  The read is not bounds-checked in the source
(`boundscheck=False`); an out-of-range index is modelled as a `none` entry. -/
def sample_k_from (s : Sampler) (values : List ℚ) : ℕ → List (Option ℚ) × Sampler
  | 0 => ([], s)
  | k + 1 =>
      let r1 := sample_1 s
      let rs := sample_k_from r1.2 values k
      (values[r1.1]? :: rs.1, rs.2)

/-- Result of the Python-level `Sampler.sample` method. -/
inductive SampleResult where
  | idx : ℕ → SampleResult
  | idxs : List ℕ → SampleResult
  | val : Option ℚ → SampleResult
  | vals : List (Option ℚ) → SampleResult
deriving DecidableEq

/-- `Sampler.sample` (sampler.pyx lines 152-168). -/
def sample (s : Sampler) (k : ℕ) (values : Option (List ℚ)) :
    SampleResult × Sampler :=
  match values with
  | none =>
      if k = 1 then let r := sample_1 s; (.idx r.1, r.2)
      else let r := sample_k s k; (.idxs r.1, r.2)
  | some vs =>
      if k = 1 then let r := sample_1 s; (.val vs[r.1]?, r.2)
      else let r := sample_k_from s vs k; (.vals r.1, r.2)

/-- The analytic probability that a draw returns index `k`, computed from an
alias table by the specification formula of spec.md section 3:
`probability[k]/n + Σ over j with alias[j] = k of (1 - probability[j])/n`. -/
def massAt (t : AliasTable) (k : ℕ) : ℚ :=
  t.proba.getD k 0 / (t.n : ℚ) +
    (((List.range t.n).filter fun j => t.aliasT.getD j 0 == k).map
      fun j => (1 - t.proba.getD j 0) / (t.n : ℚ)).sum

/-! Helper lemmas about list updates and the worklists. -/

theorem getD_set {α : Type} (l : List α) (i j : ℕ) (v d : α) :
    (l.set i v).getD j d = if i = j ∧ i < l.length then v else l.getD j d := by
  induction l generalizing i j with
  | nil => simp
  | cons hd tl ih =>
    cases i with
    | zero =>
      cases j with
      | zero => simp
      | succ j => simp
    | succ i =>
      cases j with
      | zero => simp
      | succ j =>
        simp only [List.set_cons_succ, List.getD_cons_succ, ih, List.length_cons]
        have h : (i = j ∧ i < tl.length) ↔ (i + 1 = j + 1 ∧ i + 1 < tl.length + 1) := by
          omega
        by_cases hc : i = j ∧ i < tl.length
        · rw [if_pos hc, if_pos (h.1 hc)]
        · rw [if_neg hc, if_neg (fun hx => hc (h.2 hx))]

theorem getD_replicate {α : Type} (n i : ℕ) (d : α) :
    (List.replicate n d).getD i d = d := by
  induction n generalizing i with
  | zero => simp
  | succ n ih =>
    cases i with
    | zero => simp [List.replicate]
    | succ i => simp [List.replicate, ih]

theorem drain_length (l : List ℕ) (p : List ℚ) : (drain p l).length = p.length := by
  induction l generalizing p with
  | nil => rfl
  | cons j rest ih => rw [drain, ih, List.length_set]

theorem drain_getD (l : List ℕ) (p : List ℚ) (i : ℕ) :
    (drain p l).getD i 0 = if i ∈ l ∧ i < p.length then 1 else p.getD i 0 := by
  induction l generalizing p with
  | nil => simp [drain]
  | cons j rest ih =>
    rw [drain, ih, getD_set]
    simp only [List.length_set, List.mem_cons]
    by_cases h1 : i ∈ rest <;> by_cases h2 : i < p.length <;> by_cases h3 : j = i <;>
      simp [h1, h2, h3]
    rw [if_neg (by omega)]

theorem aliasLoopF_zero (n : ℕ) (avg : ℚ) (st : BuildState) :
    aliasLoopF n avg 0 st = st := rfl

theorem aliasLoopF_nil_small (n : ℕ) (avg : ℚ) (f : ℕ) (w p : List ℚ) (a : List ℕ)
    (large : List ℕ) :
    aliasLoopF n avg f ⟨w, p, a, [], large⟩ = ⟨w, p, a, [], large⟩ := by
  cases f <;> rfl

theorem aliasLoopF_nil_large (n : ℕ) (avg : ℚ) (f : ℕ) (w p : List ℚ) (a : List ℕ)
    (small : List ℕ) :
    aliasLoopF n avg f ⟨w, p, a, small, []⟩ = ⟨w, p, a, small, []⟩ := by
  cases f with
  | zero => rfl
  | succ f => cases small <;> rfl

theorem aliasLoopF_cons (n : ℕ) (avg : ℚ) (f : ℕ) (w p : List ℚ) (a : List ℕ)
    (less more : ℕ) (small large : List ℕ) :
    aliasLoopF n avg (f + 1) ⟨w, p, a, less :: small, more :: large⟩ =
      (if (w.set more (w.getD more 0 + w.getD less 0 - avg)).getD more 0 ≥ avg then
        aliasLoopF n avg f
          ⟨w.set more (w.getD more 0 + w.getD less 0 - avg),
           p.set less (w.getD less 0 * (n : ℚ)), a.set less more, small, large ++ [more]⟩
      else
        aliasLoopF n avg f
          ⟨w.set more (w.getD more 0 + w.getD less 0 - avg),
           p.set less (w.getD less 0 * (n : ℚ)), a.set less more, small ++ [more], large⟩) :=
  rfl

theorem aliasLoop_cons (n : ℕ) (avg : ℚ) (w p : List ℚ) (a : List ℕ)
    (less more : ℕ) (small large : List ℕ) :
    aliasLoop n avg ⟨w, p, a, less :: small, more :: large⟩ =
      (if (w.set more (w.getD more 0 + w.getD less 0 - avg)).getD more 0 ≥ avg then
        aliasLoop n avg
          ⟨w.set more (w.getD more 0 + w.getD less 0 - avg),
           p.set less (w.getD less 0 * (n : ℚ)), a.set less more, small, large ++ [more]⟩
      else
        aliasLoop n avg
          ⟨w.set more (w.getD more 0 + w.getD less 0 - avg),
           p.set less (w.getD less 0 * (n : ℚ)), a.set less more, small ++ [more], large⟩) := by
  unfold aliasLoop
  rw [show (less :: small).length + (more :: large).length
        = (small.length + 1 + large.length) + 1 from by
      simp only [List.length_cons]; try omega]
  rw [aliasLoopF_cons]
  rw [show small.length + (large ++ [more]).length = small.length + 1 + large.length from by
      simp only [List.length_append, List.length_cons, List.length_nil]; try omega]
  rw [show (small ++ [more]).length + large.length = small.length + 1 + large.length from by
      simp only [List.length_append, List.length_cons, List.length_nil]; try omega]

theorem classify_fold (w : List ℚ) (avg : ℚ) (l : List ℕ) :
    ∀ (s0 l0 : List ℕ),
      l.foldl
        (fun sl i => if w.getD i 0 ≥ avg then (sl.1, sl.2 ++ [i]) else (sl.1 ++ [i], sl.2))
        (s0, l0)
      = (s0 ++ l.filter (fun i => !decide (w.getD i 0 ≥ avg)),
         l0 ++ l.filter (fun i => decide (w.getD i 0 ≥ avg))) := by
  induction l with
  | nil => simp
  | cons i l ih =>
    intro s0 l0
    simp only [List.foldl_cons]
    by_cases h : w.getD i 0 ≥ avg
    · rw [if_pos h, ih, List.filter_cons, List.filter_cons]
      rw [if_neg (by rw [decide_eq_true h]; simp), if_pos (decide_eq_true h)]
      simp [List.append_assoc]
    · rw [if_neg h, ih, List.filter_cons, List.filter_cons]
      rw [if_pos (by rw [decide_eq_false h]; simp), if_neg (by rw [decide_eq_false h]; simp)]
      simp [List.append_assoc]

theorem classify_spec (w : List ℚ) (avg : ℚ) :
    classify w avg =
      ((List.range w.length).filter (fun i => !decide (w.getD i 0 ≥ avg)),
       (List.range w.length).filter (fun i => decide (w.getD i 0 ≥ avg))) := by
  unfold classify
  rw [classify_fold]
  simp

theorem mem_classify_small (w : List ℚ) (avg : ℚ) (x : ℕ)
    (h : x ∈ (classify w avg).1) : x < w.length ∧ w.getD x 0 < avg := by
  rw [classify_spec] at h
  simp only [List.mem_filter, List.mem_range, Bool.not_eq_eq_eq_not, Bool.not_true,
    decide_eq_false_iff_not, not_le] at h
  exact h

theorem mem_classify_large (w : List ℚ) (avg : ℚ) (x : ℕ)
    (h : x ∈ (classify w avg).2) : x < w.length ∧ avg ≤ w.getD x 0 := by
  rw [classify_spec] at h
  simp only [List.mem_filter, List.mem_range, decide_eq_true_eq, ge_iff_le] at h
  exact h

theorem classify_nodup (w : List ℚ) (avg : ℚ) :
    ((classify w avg).1 ++ (classify w avg).2).Nodup := by
  rw [classify_spec]
  apply List.Nodup.append
  · exact (List.nodup_range _).filter _
  · exact (List.nodup_range _).filter _
  · intro x h1 h2
    rw [List.mem_filter] at h1 h2
    rcases h1 with ⟨-, hb1⟩
    rcases h2 with ⟨-, hb2⟩
    rw [hb2] at hb1
    exact absurd hb1 (by simp)

/-! Invariants of the pairing loop. -/

theorem aliasLoopF_bounds (n : ℕ) (avg : ℚ) :
    ∀ (f : ℕ) (st : BuildState),
      (∀ x ∈ st.small, x < n) → (∀ x ∈ st.large, x < n) →
      (∀ i, st.aliasT.getD i 0 < n) →
      ((∀ x ∈ (aliasLoopF n avg f st).small, x < n) ∧
       (∀ x ∈ (aliasLoopF n avg f st).large, x < n) ∧
       (∀ i, (aliasLoopF n avg f st).aliasT.getD i 0 < n)) := by
  intro f
  induction f with
  | zero =>
    intro st hs hl ha
    rw [aliasLoopF_zero]
    exact ⟨hs, hl, ha⟩
  | succ f ih =>
    rintro ⟨w, p, a, small, large⟩ hs hl ha
    cases small with
    | nil => rw [aliasLoopF_nil_small]; exact ⟨hs, hl, ha⟩
    | cons less small =>
      cases large with
      | nil => rw [aliasLoopF_nil_large]; exact ⟨hs, hl, ha⟩
      | cons more large =>
        rw [aliasLoopF_cons]
        have hless : less < n := hs less (List.mem_cons_self _ _)
        have hmore : more < n := hl more (List.mem_cons_self _ _)
        have hs2 : ∀ x ∈ small, x < n := fun x hx => hs x (List.mem_cons_of_mem _ hx)
        have hl2 : ∀ x ∈ large, x < n := fun x hx => hl x (List.mem_cons_of_mem _ hx)
        have ha2 : ∀ i, (a.set less more).getD i 0 < n := by
          intro i
          rw [getD_set]
          split
          · exact hmore
          · exact ha i
        split
        · apply ih
          · exact hs2
          · intro x hx
            rcases List.mem_append.1 hx with h | h
            · exact hl2 x h
            · rw [List.mem_singleton.1 h]; exact hmore
          · exact ha2
        · apply ih
          · intro x hx
            rcases List.mem_append.1 hx with h | h
            · exact hs2 x h
            · rw [List.mem_singleton.1 h]; exact hmore
          · exact hl2
          · exact ha2

theorem aliasLoopF_proba_length (n : ℕ) (avg : ℚ) :
    ∀ (f : ℕ) (st : BuildState),
      ((aliasLoopF n avg f st).proba).length = st.proba.length := by
  intro f
  induction f with
  | zero => intro st; rw [aliasLoopF_zero]
  | succ f ih =>
    rintro ⟨w, p, a, small, large⟩
    cases small with
    | nil => rw [aliasLoopF_nil_small]
    | cons less small =>
      cases large with
      | nil => rw [aliasLoopF_nil_large]
      | cons more large =>
        rw [aliasLoopF_cons]
        split <;> rw [ih] <;> simp [List.length_set]

theorem aliasLoopF_proba_range (n : ℕ) (avg : ℚ) (hn : 0 < n) (havg : avg = 1 / (n : ℚ)) :
    ∀ (f : ℕ) (w p : List ℚ) (a : List ℕ) (small large : List ℕ),
      w.length = n →
      (∀ x ∈ small, x < n ∧ 0 ≤ w.getD x 0 ∧ w.getD x 0 < avg) →
      (∀ x ∈ large, x < n ∧ avg ≤ w.getD x 0) →
      (small ++ large).Nodup →
      (∀ i, 0 ≤ p.getD i 0 ∧ p.getD i 0 ≤ 1) →
      (∀ i, 0 ≤ (aliasLoopF n avg f ⟨w, p, a, small, large⟩).proba.getD i 0 ∧
        (aliasLoopF n avg f ⟨w, p, a, small, large⟩).proba.getD i 0 ≤ 1) := by
  intro f
  induction f with
  | zero =>
    intro w p a small large hw hs hl hnd hp
    rw [aliasLoopF_zero]
    exact hp
  | succ f ih =>
    intro w p a small large hw hs hl hnd hp
    cases small with
    | nil => rw [aliasLoopF_nil_small]; exact hp
    | cons less small =>
      cases large with
      | nil => rw [aliasLoopF_nil_large]; exact hp
      | cons more large =>
        rw [aliasLoopF_cons]
        obtain ⟨hlessn, hwl0, hwlavg⟩ := hs less (List.mem_cons_self _ _)
        obtain ⟨hmoren, hwmavg⟩ := hl more (List.mem_cons_self _ _)
        have hnpos : (0 : ℚ) < (n : ℚ) := by exact_mod_cast hn
        -- the structure of the Nodup hypothesis
        have hnd1 : (small ++ more :: large).Nodup := by
          rw [List.cons_append, List.nodup_cons] at hnd
          exact hnd.2
        have hmore_small : more ∉ small := by
          have hdisj := (List.nodup_append.1 hnd1).2.2
          intro hmem
          exact hdisj hmem (List.mem_cons_self _ _)
        have hmore_large : more ∉ large :=
          (List.nodup_cons.1 (List.nodup_append.1 hnd1).2.1).1
        -- the updated weights array
        have hwm : (w.set more (w.getD more 0 + w.getD less 0 - avg)).getD more 0
            = w.getD more 0 + w.getD less 0 - avg := by
          rw [getD_set, if_pos ⟨rfl, by rw [hw]; exact hmoren⟩]
        have hwne : ∀ x, x ≠ more →
            (w.set more (w.getD more 0 + w.getD less 0 - avg)).getD x 0 = w.getD x 0 := by
          intro x hx
          rw [getD_set, if_neg (fun hc => hx hc.1.symm)]
        have hW : (w.set more (w.getD more 0 + w.getD less 0 - avg)).length = n := by
          rw [List.length_set]; exact hw
        -- the updated proba array stays within [0, 1]
        have hp1 : ∀ i, 0 ≤ (p.set less (w.getD less 0 * (n : ℚ))).getD i 0 ∧
            (p.set less (w.getD less 0 * (n : ℚ))).getD i 0 ≤ 1 := by
          intro i
          rw [getD_set]
          split
          · constructor
            · exact mul_nonneg hwl0 (le_of_lt hnpos)
            · have h1 : w.getD less 0 * (n : ℚ) < (1 / (n : ℚ)) * (n : ℚ) := by
                apply mul_lt_mul_of_pos_right _ hnpos
                rw [← havg]; exact hwlavg
              rw [one_div_mul_cancel (ne_of_gt hnpos)] at h1
              exact le_of_lt h1
          · exact hp i
        -- the small-list invariant survives the weight update
        have hs2 : ∀ x ∈ small,
            x < n ∧ 0 ≤ (w.set more (w.getD more 0 + w.getD less 0 - avg)).getD x 0 ∧
              (w.set more (w.getD more 0 + w.getD less 0 - avg)).getD x 0 < avg := by
          intro x hx
          have hxm : x ≠ more := fun hxe => hmore_small (hxe ▸ hx)
          rw [hwne x hxm]
          exact hs x (List.mem_cons_of_mem _ hx)
        have hl2 : ∀ x ∈ large,
            x < n ∧ avg ≤ (w.set more (w.getD more 0 + w.getD less 0 - avg)).getD x 0 := by
          intro x hx
          have hxm : x ≠ more := fun hxe => hmore_large (hxe ▸ hx)
          rw [hwne x hxm]
          exact hl x (List.mem_cons_of_mem _ hx)
        split
        · -- more goes back to large
          rename_i hcond
          have hL : ∀ x ∈ large ++ [more],
              x < n ∧ avg ≤ (w.set more (w.getD more 0 + w.getD less 0 - avg)).getD x 0 := by
            intro x hx
            rcases List.mem_append.1 hx with h | h
            · exact hl2 x h
            · rw [List.mem_singleton.1 h]
              exact ⟨hmoren, hcond⟩
          have hN : (small ++ (large ++ [more])).Nodup := by
            have hperm : (small ++ more :: large).Perm (small ++ (large ++ [more])) :=
              List.Perm.append_left small (List.perm_append_singleton more large).symm
            exact hperm.nodup hnd1
          exact ih _ _ _ _ _ hW hs2 hL hN hp1
        · -- more goes back to small
          rename_i hcond
          have hS : ∀ x ∈ small ++ [more],
              x < n ∧ 0 ≤ (w.set more (w.getD more 0 + w.getD less 0 - avg)).getD x 0 ∧
                (w.set more (w.getD more 0 + w.getD less 0 - avg)).getD x 0 < avg := by
            intro x hx
            rcases List.mem_append.1 hx with h | h
            · exact hs2 x h
            · rw [List.mem_singleton.1 h]
              refine ⟨hmoren, ?_, ?_⟩
              · rw [hwm]
                linarith
              · rw [hwm] at hcond ⊢
                exact lt_of_not_ge hcond
          have hN : ((small ++ [more]) ++ large).Nodup := by
            rw [List.append_assoc]
            simpa using hnd1
          exact ih _ _ _ _ _ hW hS hl2 hN hp1
/-! Facts about the assembled construction. -/

theorem buildState_eq (w : List ℚ) :
    buildState w = aliasLoopF w.length (1 / (w.length : ℚ))
      ((classify w (1 / (w.length : ℚ))).1.length + (classify w (1 / (w.length : ℚ))).2.length)
      ⟨w, List.replicate w.length 0, List.replicate w.length 0,
       (classify w (1 / (w.length : ℚ))).1, (classify w (1 / (w.length : ℚ))).2⟩ := rfl

theorem buildState_bounds (w : List ℚ) (h : 0 < w.length) :
    ((∀ x ∈ (buildState w).small, x < w.length) ∧
     (∀ x ∈ (buildState w).large, x < w.length) ∧
     (∀ i, (buildState w).aliasT.getD i 0 < w.length)) := by
  rw [buildState_eq]
  apply aliasLoopF_bounds
  · intro x hx
    exact (mem_classify_small w _ x hx).1
  · intro x hx
    exact (mem_classify_large w _ x hx).1
  · intro i
    rw [getD_replicate]
    exact h

theorem buildState_proba_length (w : List ℚ) :
    (buildState w).proba.length = w.length := by
  rw [buildState_eq, aliasLoopF_proba_length]
  exact List.length_replicate _ _

theorem buildState_proba_range (w : List ℚ) (h : 0 < w.length) (hw : ∀ x ∈ w, 0 ≤ x) :
    ∀ i, 0 ≤ (buildState w).proba.getD i 0 ∧ (buildState w).proba.getD i 0 ≤ 1 := by
  rw [buildState_eq]
  refine aliasLoopF_proba_range w.length (1 / (w.length : ℚ)) h rfl _ _ _ _ _ _ rfl
    ?_ ?_ ?_ ?_
  · intro x hx
    obtain ⟨h1, h2⟩ := mem_classify_small w _ x hx
    refine ⟨h1, ?_, h2⟩
    rw [List.getD_eq_getElem _ _ h1]
    exact hw _ (List.getElem_mem _)
  · intro x hx
    exact mem_classify_large w _ x hx
  · exact classify_nodup w _
  · intro i
    rw [getD_replicate]
    exact ⟨le_refl 0, zero_le_one⟩

theorem buildTable_fst_proba (w : List ℚ) :
    (buildTable w).1.proba =
      drain (drain (buildState w).proba (buildState w).small) (buildState w).large := rfl

theorem buildTable_fst_alias (w : List ℚ) :
    (buildTable w).1.aliasT = (buildState w).aliasT := rfl

theorem buildTable_proba_range (w : List ℚ) (h : 0 < w.length) (hw : ∀ x ∈ w, 0 ≤ x) :
    ∀ i, 0 ≤ (buildTable w).1.proba.getD i 0 ∧ (buildTable w).1.proba.getD i 0 ≤ 1 := by
  intro i
  rw [buildTable_fst_proba, drain_getD]
  split
  · norm_num
  · rw [drain_getD]
    split
    · norm_num
    · exact buildState_proba_range w h hw i

theorem buildTable_alias_lt (w : List ℚ) (h : 0 < w.length) :
    ∀ i, (buildTable w).1.aliasT.getD i 0 < w.length := by
  intro i
  rw [buildTable_fst_alias]
  exact (buildState_bounds w h).2.2 i

theorem buildTable_drained (w : List ℚ) (i : ℕ)
    (hmem : i ∈ (buildState w).small ++ (buildState w).large) (hi : i < w.length) :
    (buildTable w).1.proba.getD i 0 = 1 := by
  have hlen1 : (buildState w).proba.length = w.length := buildState_proba_length w
  have hlen2 : (drain (buildState w).proba (buildState w).small).length = w.length := by
    rw [drain_length, hlen1]
  rw [buildTable_fst_proba]
  rcases List.mem_append.1 hmem with h | h
  · rw [drain_getD]
    by_cases hL : i ∈ (buildState w).large
    · rw [if_pos ⟨hL, by rw [hlen2]; exact hi⟩]
    · rw [if_neg (fun hc => hL hc.1), drain_getD, if_pos ⟨h, by rw [hlen1]; exact hi⟩]
  · rw [drain_getD, if_pos ⟨h, by rw [hlen2]; exact hi⟩]

/-! Facts about the generator primitives. -/

theorem genNext_lt (s : ℕ) : genNext s < lcgM :=
  Nat.mod_lt _ (by norm_num [lcgM])

theorem maxi_add_one : maxi + 1 = lcgM := by norm_num [maxi, lcgM]

theorem fair_die_fst (s : Sampler) (n : ℕ) :
    (fair_die s n).1 = genNext s.gen * n % 2 ^ 64 / (s.maxi + 1) := rfl

theorem coin_toss_fst (s : Sampler) (p : ℚ) :
    (coin_toss s p).1 = decide ((genNext s.gen : ℚ) < (s.maxi : ℚ) * p) := rfl

theorem fair_die_lt (s : Sampler) (n : ℕ) (hm : s.maxi = maxi) (hn : 0 < n) :
    (fair_die s n).1 < n := by
  rw [fair_die_fst, hm, Nat.div_lt_iff_lt_mul (by norm_num [maxi])]
  calc genNext s.gen * n % 2 ^ 64 ≤ genNext s.gen * n := Nat.mod_le _ _
    _ < lcgM * n := mul_lt_mul_of_pos_right (genNext_lt s.gen) hn
    _ = n * (maxi + 1) := by rw [maxi_add_one]; ring

theorem sample_1_eq (s : Sampler) :
    sample_1 s =
      if (coin_toss (fair_die s s.n).2 (s.proba.getD (fair_die s s.n).1 0)).1
      then ((fair_die s s.n).1,
            (coin_toss (fair_die s s.n).2 (s.proba.getD (fair_die s s.n).1 0)).2)
      else (s.aliasT.getD (fair_die s s.n).1 0,
            (coin_toss (fair_die s s.n).2 (s.proba.getD (fair_die s s.n).1 0)).2) := rfl

theorem sample_1_fst (s : Sampler) :
    (sample_1 s).1 =
      if (coin_toss (fair_die s s.n).2 (s.proba.getD (fair_die s s.n).1 0)).1
      then (fair_die s s.n).1 else s.aliasT.getD (fair_die s s.n).1 0 := by
  rw [sample_1_eq]
  split <;> rfl

theorem sample_1_snd (s : Sampler) :
    (sample_1 s).2 = { s with gen := genNext (genNext s.gen) } := by
  rw [sample_1_eq]
  split <;> rfl

theorem sample_k_fields (s : Sampler) (k : ℕ) :
    (sample_k s k).2.n = s.n ∧ (sample_k s k).2.proba = s.proba ∧
    (sample_k s k).2.aliasT = s.aliasT ∧ (sample_k s k).2.maxi = s.maxi := by
  induction k generalizing s with
  | zero => exact ⟨rfl, rfl, rfl, rfl⟩
  | succ k ih =>
    refine ⟨?_, ?_, ?_, ?_⟩
    · show (sample_k (sample_1 s).2 k).2.n = s.n
      rw [(ih (sample_1 s).2).1, sample_1_snd s]
    · show (sample_k (sample_1 s).2 k).2.proba = s.proba
      rw [(ih (sample_1 s).2).2.1, sample_1_snd s]
    · show (sample_k (sample_1 s).2 k).2.aliasT = s.aliasT
      rw [(ih (sample_1 s).2).2.2.1, sample_1_snd s]
    · show (sample_k (sample_1 s).2 k).2.maxi = s.maxi
      rw [(ih (sample_1 s).2).2.2.2, sample_1_snd s]

theorem sample_k_from_fields (s : Sampler) (vs : List ℚ) (k : ℕ) :
    (sample_k_from s vs k).2.n = s.n ∧ (sample_k_from s vs k).2.proba = s.proba ∧
    (sample_k_from s vs k).2.aliasT = s.aliasT ∧ (sample_k_from s vs k).2.maxi = s.maxi := by
  induction k generalizing s with
  | zero => exact ⟨rfl, rfl, rfl, rfl⟩
  | succ k ih =>
    refine ⟨?_, ?_, ?_, ?_⟩
    · show (sample_k_from (sample_1 s).2 vs k).2.n = s.n
      rw [(ih (sample_1 s).2).1, sample_1_snd s]
    · show (sample_k_from (sample_1 s).2 vs k).2.proba = s.proba
      rw [(ih (sample_1 s).2).2.1, sample_1_snd s]
    · show (sample_k_from (sample_1 s).2 vs k).2.aliasT = s.aliasT
      rw [(ih (sample_1 s).2).2.2.1, sample_1_snd s]
    · show (sample_k_from (sample_1 s).2 vs k).2.maxi = s.maxi
      rw [(ih (sample_1 s).2).2.2.2, sample_1_snd s]

theorem sample_eq_none (s : Sampler) (k : ℕ) (hk : k ≠ 1) :
    sample s k none = (.idxs (sample_k s k).1, (sample_k s k).2) := by
  unfold sample
  rw [if_neg hk]

theorem sample_eq_some (s : Sampler) (k : ℕ) (vs : List ℚ) (hk : k ≠ 1) :
    sample s k (some vs) =
      (.vals (sample_k_from s vs k).1, (sample_k_from s vs k).2) := by
  show (if k = 1 then let r := sample_1 s; (SampleResult.val vs[r.1]?, r.2)
        else let r := sample_k_from s vs k; (SampleResult.vals r.1, r.2)) = _
  rw [if_neg hk]

theorem sample_fields (s : Sampler) (k : ℕ) (ov : Option (List ℚ)) :
    (sample s k ov).2.proba = s.proba ∧ (sample s k ov).2.aliasT = s.aliasT := by
  rcases ov with _ | vs
  · by_cases hk : k = 1
    · subst hk
      rw [show (sample s 1 none).2 = (sample_1 s).2 from rfl, sample_1_snd s]
      exact ⟨rfl, rfl⟩
    · rw [sample_eq_none s k hk]
      exact ⟨(sample_k_fields s k).2.1, (sample_k_fields s k).2.2.1⟩
  · by_cases hk : k = 1
    · subst hk
      rw [show (sample s 1 (some vs)).2 = (sample_1 s).2 from rfl, sample_1_snd s]
      exact ⟨rfl, rfl⟩
    · rw [sample_eq_some s k vs hk]
      exact ⟨(sample_k_from_fields s vs k).2.1, (sample_k_from_fields s vs k).2.2.1⟩

/-! The claims.  The arithmetic of `ℚ` is `@[irreducible]` by default; inside
this section it is made semireducible again so that concrete instances of the
embedded functions can be evaluated by `decide` and `rfl`. -/

section ConcreteEvaluation

attribute [local semireducible] Rat.add Rat.mul Rat.inv Rat.sub

/-- Claim C1 (code bug): the spec asserts exact mass conservation
`P(draw = k) = w[k] / W` for every weight vector, but the builder uses
`avg = 1 / n` without ever normalising the weights, so the invariant fails
whenever the weights do not sum to 1.  At the failing input `w = [1, 3]`
(so `W = 4`), the constructed table gives `P(draw = 0) = 1/2` while the claim
demands `w[0] / W = 1/4`. -/
theorem C1_mass_violation :
    massAt (buildTable [(1 : ℚ), 3]).1 0 = 1 / 2 ∧
    (1 : ℚ) / ((1 : ℚ) + 3) = 1 / 4 ∧ (1 / 2 : ℚ) ≠ 1 / 4 := by
  refine ⟨by decide, by norm_num, by norm_num⟩

/-- Claim C2 (code bug): the spec asserts that construction fails with
`InvalidInput` for `n = 0` or a negative weight, but the code contains no
validation whatsoever: with an empty weight vector construction succeeds and
produces an (unusable) sampler with `n = 0`, and with `w = [1, -1]` it
succeeds and silently produces the invalid probability row `[1, -2]`. -/
theorem C2_no_input_validation :
    (buildTable ([] : List ℚ)).1.n = 0 ∧ (buildTable ([] : List ℚ)).1.proba = [] ∧
    (buildTable [(1 : ℚ), -1]).1.proba = [1, -2] := by
  refine ⟨rfl, rfl, by decide⟩

/-- Claim C3 counterexample: `coin_toss(1)` is not true for every engine draw.
Seeding with 247665088 makes the next draw equal to `maxi` and the
single-precision comparison yields false (as does even the exact-arithmetic
idealisation, since the comparison is strict); seeding with 902840901 makes
the next draw 2147483600, strictly below `maxi`, and the single-precision
comparison still yields false because that draw rounds to `2 ^ 31`. -/
theorem C3_counterexample :
    (genNext (mkSampler [(1 : ℚ)] true (some 247665088) 0).1.gen = maxi ∧
     (coin_toss_single (mkSampler [(1 : ℚ)] true (some 247665088) 0).1 1).1 = false ∧
     (coin_toss (mkSampler [(1 : ℚ)] true (some 247665088) 0).1 1).1 = false) ∧
    (genNext (mkSampler [(1 : ℚ)] true (some 902840901) 0).1.gen = 2147483600 ∧
     2147483600 < maxi ∧
     (coin_toss_single (mkSampler [(1 : ℚ)] true (some 902840901) 0).1 1).1 = false) := by
  exact ⟨⟨by decide, by decide, by decide⟩, by decide, by decide, by decide⟩

/-- Claim C3 (amended): `coin_toss(0)` returns false for every engine draw;
`coin_toss(1)` is not deterministically true: the comparison runs in single
precision, where `maxi * 1` is `2 ^ 31`, so it returns true exactly when the
single-precision value of the draw is below `2 ^ 31` — and every draw from
2147483584 up to `maxi` = 2147483646 rounds to `2 ^ 31`, so `coin_toss(1)`
returns false on that whole range, not only at the maximum draw. -/
theorem C3_amended_boundaries (s : Sampler) (hm : s.maxi = maxi) :
    (coin_toss_single s 0).1 = false ∧
    ((coin_toss_single s 1).1 = decide (float32 (genNext s.gen) < 2 ^ 31)) ∧
    (∀ d ∈ List.range 63, float32 (2147483584 + d) = 2 ^ 31) := by
  refine ⟨?_, ?_, by decide⟩
  · show decide (float32 (genNext s.gen) < float32 (float32 s.maxi * 0)) = false
    rw [hm, mul_zero, show float32 0 = 0 from rfl]
    simp
  · show decide (float32 (genNext s.gen) < float32 (float32 s.maxi * 1)) = _
    rw [hm, mul_one, show float32 (float32 maxi) = 2 ^ 31 from by decide]

/-- Witness for C3: the amended theorem applied to the concrete sampler with
seed 902840901, whose next draw (2147483600, strictly below `maxi`) rounds to
`2 ^ 31` in single precision. -/
theorem C3_witness :
    (mkSampler [(1 : ℚ)] true (some 902840901) 0).1.maxi = maxi ∧
    ((coin_toss_single (mkSampler [(1 : ℚ)] true (some 902840901) 0).1 0).1 = false ∧
     ((coin_toss_single (mkSampler [(1 : ℚ)] true (some 902840901) 0).1 1).1 =
       decide (float32 (genNext (mkSampler [(1 : ℚ)] true (some 902840901) 0).1.gen)
         < 2 ^ 31)) ∧
     (∀ d ∈ List.range 63, float32 (2147483584 + d) = 2 ^ 31)) :=
  ⟨rfl, C3_amended_boundaries _ rfl⟩

/-- Claim C4 (code bug): the claim demands that `draw * n` be computed in an
arithmetic width wide enough that it never overflows, but that width is fixed
by the `generator()` result type declared in random_wrapper.pxd, which is
missing from src/, and the spec itself (section 9) describes the reference
computation as fixed-width arithmetic "which can silently overflow" and calls
that a defect.  Under the spec-modelled minimal 32-bit realisation
(`fair_die32`), at the reachable maximal draw 2147483646 (the draw after seed
247665088) with `n = 3` the product wraps and the die returns 0, while the
claimed `floor(draw * n / (MAX + 1))` is 2. -/
theorem C4_fixed_width_overflow :
    (fair_die32 (mkSampler [(1 : ℚ)] true (some 247665088) 0).1 3).1 = 0 ∧
    genNext (mkSampler [(1 : ℚ)] true (some 247665088) 0).1.gen * 3 / (maxi + 1) = 2 ∧
    (0 : ℕ) ≠ 2 := by
  exact ⟨by decide, by decide, by decide⟩

/-- Claim C5 (code bug): the spec asserts `sample` with a short values buffer
fails with `OutOfRange`, but the source is compiled with `boundscheck=False`
and performs no check at all: with weights of length 4 and a values buffer of
length 2, `sample_k_from` silently performs out-of-bounds reads (modelled as
`none`) and returns normally instead of raising. -/
theorem C5_oob_silent_return :
    (sample_k_from (mkSampler [(1 : ℚ)/4, 1/4, 1/4, 1/4] true (some 30000) 0).1
      [10, 20] 2).1 = [none, none] := by
  decide

/-- Claim C6: table construction follows the spec's worklist algorithm: while
both worklists are non-empty the loop pops `less` from `small` and `more` from
`large`, sets `probability[less] = weight[less] * n` and `alias[less] = more`,
updates `weight[more] += weight[less] - avg` and re-classifies `more` against
`avg`; and once the loop exits, every index remaining in either worklist
receives probability exactly 1. -/
theorem C6_worklist_algorithm (n : ℕ) (avg : ℚ) (w p : List ℚ) (a : List ℕ)
    (less more : ℕ) (small large : List ℕ) (wv : List ℚ) (i : ℕ)
    (hmem : i ∈ (buildState wv).small ++ (buildState wv).large) (hi : i < wv.length) :
    (aliasLoop n avg ⟨w, p, a, less :: small, more :: large⟩ =
      (if (w.set more (w.getD more 0 + w.getD less 0 - avg)).getD more 0 ≥ avg then
        aliasLoop n avg ⟨w.set more (w.getD more 0 + w.getD less 0 - avg),
          p.set less (w.getD less 0 * (n : ℚ)), a.set less more, small, large ++ [more]⟩
      else
        aliasLoop n avg ⟨w.set more (w.getD more 0 + w.getD less 0 - avg),
          p.set less (w.getD less 0 * (n : ℚ)), a.set less more, small ++ [more], large⟩)) ∧
    (buildTable wv).1.proba.getD i 0 = 1 :=
  ⟨aliasLoop_cons n avg w p a less more small large, buildTable_drained wv i hmem hi⟩

/-- Witness for C6: at weights `[1, 3]` the pairing loop exits with both
indices still in the worklists (both weights are ≥ avg, so `small` starts
empty), and index 0 indeed receives probability 1. -/
theorem C6_witness :
    (0 ∈ (buildState [(1 : ℚ), 3]).small ++ (buildState [(1 : ℚ), 3]).large ∧
      0 < ([(1 : ℚ), 3]).length) ∧
    (buildTable [(1 : ℚ), 3]).1.proba.getD 0 0 = 1 :=
  ⟨by decide,
   (C6_worklist_algorithm 0 0 [] [] [] 0 0 [] [] [(1 : ℚ), 3] 0 (by decide) (by decide)).2⟩

/-- Claim C7: for every constructed sampler, `sample_1` draws
`col = fair_die(n)`, then `heads = coin_toss(probability[col])` from the next
engine draw, returns `col` if heads and `alias[col]` otherwise, and the
returned index lies in `[0, n)`. -/
theorem C7_sample_one (w : List ℚ) (copy : Bool) (seed : Option ℕ) (entropy : ℕ)
    (h1 : 1 ≤ w.length) :
    (sample_1 (mkSampler w copy seed entropy).1 =
      (let s := (mkSampler w copy seed entropy).1
       let col := (fair_die s s.n).1
       let heads := (coin_toss (fair_die s s.n).2 (s.proba.getD col 0)).1
       let s2 := (coin_toss (fair_die s s.n).2 (s.proba.getD col 0)).2
       if heads then (col, s2) else (s.aliasT.getD col 0, s2))) ∧
    (sample_1 (mkSampler w copy seed entropy).1).1 < w.length := by
  constructor
  · exact sample_1_eq _
  · rw [sample_1_fst]
    split
    · exact fair_die_lt _ _ rfl h1
    · exact buildTable_alias_lt w h1 _

/-- Witness for C7: the sample-one theorem applied to the sampler built from
`[1/2, 1/2]` with seed 7. -/
theorem C7_witness :
    1 ≤ ([(1 : ℚ)/2, 1/2]).length ∧
    (sample_1 (mkSampler [(1 : ℚ)/2, 1/2] true (some 7) 0).1).1 <
      ([(1 : ℚ)/2, 1/2]).length :=
  ⟨by norm_num, (C7_sample_one [(1 : ℚ)/2, 1/2] true (some 7) 0 (by norm_num)).2⟩

/-- Claim C8: after construction from `n ≥ 1` non-negative weights, every
probability entry lies in `[0, 1]` and every alias entry is an index in
`[0, n)`; and no sampling operation ever mutates the `proba` or `alias`
arrays of any sampler. -/
theorem C8_table_invariants (w : List ℚ) (h1 : 1 ≤ w.length) (hnn : ∀ x ∈ w, 0 ≤ x) :
    (∀ i, 0 ≤ (buildTable w).1.proba.getD i 0 ∧ (buildTable w).1.proba.getD i 0 ≤ 1) ∧
    (∀ i, (buildTable w).1.aliasT.getD i 0 < w.length) ∧
    (∀ (s : Sampler) (k : ℕ) (vs : List ℚ) (ov : Option (List ℚ)),
      (sample_1 s).2.proba = s.proba ∧ (sample_1 s).2.aliasT = s.aliasT ∧
      (sample_k s k).2.proba = s.proba ∧ (sample_k s k).2.aliasT = s.aliasT ∧
      (sample_k_from s vs k).2.proba = s.proba ∧
      (sample_k_from s vs k).2.aliasT = s.aliasT ∧
      (sample s k ov).2.proba = s.proba ∧ (sample s k ov).2.aliasT = s.aliasT) := by
  refine ⟨buildTable_proba_range w h1 hnn, buildTable_alias_lt w h1, ?_⟩
  intro s k vs ov
  refine ⟨?_, ?_, (sample_k_fields s k).2.1, (sample_k_fields s k).2.2.1,
    (sample_k_from_fields s vs k).2.1, (sample_k_from_fields s vs k).2.2.1,
    (sample_fields s k ov).1, (sample_fields s k ov).2⟩
  · rw [sample_1_snd s]
  · rw [sample_1_snd s]

/-- Witness for C8: the table invariants applied to weights `[1/4, 3/4]`,
evaluated at index 0. -/
theorem C8_witness :
    ((1 ≤ ([(1 : ℚ)/4, 3/4]).length ∧ ∀ x ∈ [(1 : ℚ)/4, 3/4], 0 ≤ x) ∧
     (0 ≤ (buildTable [(1 : ℚ)/4, 3/4]).1.proba.getD 0 0 ∧
       (buildTable [(1 : ℚ)/4, 3/4]).1.proba.getD 0 0 ≤ 1)) :=
  ⟨⟨by norm_num, by decide⟩,
   (C8_table_invariants [(1 : ℚ)/4, 3/4] (by norm_num) (by decide)).1 0⟩

/-- Claim C9: two samplers constructed with the same weight vector and the
same explicit integer seed produce identical output sequences, for every k,
whatever the entropy source would have produced and whatever the copy flags
are. -/
theorem C9_determinism (w : List ℚ) (s : ℕ) (e1 e2 : ℕ) (c1 c2 : Bool) (k : ℕ) :
    (sample_k (mkSampler w c1 (some s) e1).1 k).1 =
      (sample_k (mkSampler w c2 (some s) e2).1 k).1 := rfl

/-- Claim C10: with `copy = true` the caller's weight buffer is unchanged
after construction; with `copy = false` the caller's buffer holds the working
weights mutated by step 3 of the algorithm, and at the concrete input
`[1/4, 3/4]` that buffer really differs from the original. -/
theorem C10_copy_semantics (w : List ℚ) (seed : Option ℕ) (entropy : ℕ) :
    (mkSampler w true seed entropy).2 = w ∧
    (mkSampler w false seed entropy).2 = (buildTable w).2 ∧
    (buildTable [(1 : ℚ)/4, 3/4]).2 ≠ [(1 : ℚ)/4, 3/4] := by
  refine ⟨rfl, rfl, by decide⟩

end ConcreteEvaluation

end Vose
